import Mathlib

/-!
# Verification of the consensus-rs core against its specification

Shallow embedding of the consensus core of `consensus-rs`:
- `src/consensus/types.rs` — `View` and its `PartialEq`/`PartialOrd` impls,
  `Subject`, `PrePrepare`, `Proposal`;
- `src/store/base_index.rs` — `IndexType`, `BaseIndex` (`prefix_key`, `get`,
  `contains`, `put`, `remove`, `clear`, `put_transaction`) and
  `BaseIndexIter`;
- `src/core/genesis.rs` — `store_genesis_block`.

Machine integers (`u64`) are modelled as `Nat`; where overflow matters the
reduction modulo `2^64` is explicit.  Byte strings are `List Nat`.
Components of the repository that are not part of the sources at hand
(the `cryptocurrency_kit` codec, `types/block.rs`, `core/ledger.rs`,
`config.rs`, the RocksDB key-value store) are modelled from the
specification; each such definition carries a doc comment starting with
`Modelled from the spec:`.
-/

set_option autoImplicit false

namespace ConsensusRs

/-- Byte strings (`Vec<u8>`, `&[u8]`): lists of byte values. -/
abbrev Bytes := List Nat

/-- `pub type Height = u64` (from `types/mod.rs`, via the spec: monotonic
nonnegative integer). -/
abbrev Height := Nat

/-- `pub type Round = u64;` (src/consensus/types.rs). -/
abbrev Round := Nat

/-- Modelled from the spec: `Hash` — 32-byte cryptographic digest, consumed
as an opaque byte string. -/
abbrev Hash := Bytes

/-- Modelled from the spec: `Address` — 20-byte identity, opaque bytes. -/
abbrev Address := Bytes

/-- Modelled from the spec: `Signature` — recoverable ECDSA signature,
opaque bytes. -/
abbrev Signature := Bytes

/-- `EMPTY_HASH` from `cryptocurrency_kit::crypto`: the all-zero digest. -/
def EMPTY_HASH : Hash := List.replicate 32 0

/-- `struct View { round: Round, height: Height }` (src/consensus/types.rs,
fields in source order). -/
structure View where
  round : Round
  height : Height
deriving Repr, DecidableEq

/-- `u64::partial_cmp`: total comparison on `u64`, always `Some`. -/
def u64PartialCmp (a b : Nat) : Option Ordering :=
  some (compare a b)

/-- `impl PartialOrd for View` (src/consensus/types.rs:103-114): compare
heights; on `Equal` fall through to the rounds; the `None` arm of the
source is `unreachable!()` and is modelled as `none`. -/
def View.partialCmp (a b : View) : Option Ordering :=
  match u64PartialCmp a.height b.height with
  | some Ordering.eq => u64PartialCmp a.round b.round
  | some o => some o
  | none => none

/-- `impl PartialEq for View` (src/consensus/types.rs:97-101). -/
def View.beq (a b : View) : Bool :=
  a.height == b.height && a.round == b.round

/-- Rust `a < b` via `PartialOrd`: `partial_cmp(a, b) == Some(Less)`. -/
def View.lt (a b : View) : Bool :=
  View.partialCmp a b == some Ordering.lt

lemma compare_nat_def (a b : Nat) :
    compare a b = if a < b then Ordering.lt else if a = b then Ordering.eq else Ordering.gt := by
  rcases Nat.lt_trichotomy a b with h | h | h
  · simp [Nat.compare_eq_lt.mpr h, h]
  · simp [h, Nat.compare_eq_eq.mpr rfl]
  · have h1 : ¬ a < b := Nat.not_lt.mpr (Nat.le_of_lt h)
    have h2 : a ≠ b := Nat.ne_of_gt h
    simp [Nat.compare_eq_gt.mpr h, h1, h2]

lemma view_partialCmp_isSome (a b : View) : (View.partialCmp a b).isSome = true := by
  unfold View.partialCmp u64PartialCmp
  rcases h : compare a.height b.height <;> simp [h]

lemma view_lt_iff (a b : View) :
    View.lt a b = true ↔
      a.height < b.height ∨ (a.height = b.height ∧ a.round < b.round) := by
  unfold View.lt View.partialCmp u64PartialCmp
  rw [compare_nat_def a.height b.height, compare_nat_def a.round b.round]
  by_cases h1 : a.height < b.height
  · simp [h1]
    decide
  · by_cases h2 : a.height = b.height
    · by_cases h3 : a.round < b.round
      · simp [h1, h2, h3]
        decide
      · by_cases h4 : a.round = b.round <;> simp [h1, h2, h3, h4] <;> decide
    · simp [h1, h2]
      decide

/-- C1: Views are totally ordered by height then round: the comparison
always yields a result; `a < b` iff `a.height < b.height`, or the heights
are equal and `a.round < b.round`; any two views are related by `<`,
equality, or `>`; and in particular `View{h:1,r:5} < View{h:2,r:0}` and
`View{h:1,r:0} < View{h:1,r:1}`. -/
theorem view_total_order :
    (∀ a b : View, (View.partialCmp a b).isSome = true) ∧
    (∀ a b : View,
      View.lt a b = true ↔
        a.height < b.height ∨ (a.height = b.height ∧ a.round < b.round)) ∧
    (∀ a b : View,
      View.lt a b = true ∨ View.beq a b = true ∨ View.lt b a = true) ∧
    View.lt ⟨5, 1⟩ ⟨0, 2⟩ = true ∧
    View.lt ⟨0, 1⟩ ⟨1, 1⟩ = true := by
  refine ⟨view_partialCmp_isSome, view_lt_iff, ?_, by decide, by decide⟩
  intro a b
  rcases Nat.lt_trichotomy a.height b.height with h | h | h
  · exact Or.inl ((view_lt_iff a b).mpr (Or.inl h))
  · rcases Nat.lt_trichotomy a.round b.round with h' | h' | h'
    · exact Or.inl ((view_lt_iff a b).mpr (Or.inr ⟨h, h'⟩))
    · refine Or.inr (Or.inl ?_)
      simp [View.beq, h, h']
    · exact Or.inr (Or.inr ((view_lt_iff b a).mpr (Or.inr ⟨h.symm, h'⟩)))
  · exact Or.inr (Or.inr ((view_lt_iff b a).mpr (Or.inl h)))

/-! ## Codec

Modelled from the spec: the canonical byte codec of `cryptocurrency_kit`
(`StorageValue::into_bytes` / `from_bytes`, macro
`implement_storagevalue_traits!`) is not among the sources.  Per the spec:
encoding is deterministic, integer widths are fixed (8-byte unsigned
big-endian), variable-length byte fields are length-delimited, and
`hash(x) = H(encode(x))` for an opaque digest `H`. -/

/-- 8-byte unsigned big-endian encoding of a `u64` (spec §4.1). -/
def encU64 (n : Nat) : Bytes :=
  [n / 2^56 % 256, n / 2^48 % 256, n / 2^40 % 256, n / 2^32 % 256,
   n / 2^24 % 256, n / 2^16 % 256, n / 2^8 % 256, n % 256]

/-- Big-endian decoder for a `u64`; fails (`CorruptedBytes`) on truncation. -/
def decU64 : Bytes → Option (Nat × Bytes)
  | b0 :: b1 :: b2 :: b3 :: b4 :: b5 :: b6 :: b7 :: rest =>
      some (((((((b0 * 256 + b1) * 256 + b2) * 256 + b3) * 256 + b4) * 256 + b5) * 256
        + b6) * 256 + b7, rest)
  | _ => none

/-- Reads exactly `n` bytes; fails (`CorruptedBytes`) on truncation. -/
def readBytes (n : Nat) (b : Bytes) : Option (Bytes × Bytes) :=
  if n ≤ b.length then some (b.take n, b.drop n) else none

/-- Length-delimited byte-string encoding (spec §4.1: canonical, decodable). -/
def encBytes (l : Bytes) : Bytes := encU64 l.length ++ l

def decBytes (b : Bytes) : Option (Bytes × Bytes) := do
  let (n, r) ← decU64 b
  readBytes n r

/-- Canonical encoding of an optional field: tag byte then the payload. -/
def encOpt {α : Type} (enc : α → Bytes) : Option α → Bytes
  | none => [0]
  | some x => 1 :: enc x

def decOpt {α : Type} (dec : Bytes → Option (α × Bytes)) : Bytes → Option (Option α × Bytes)
  | 0 :: rest => some (none, rest)
  | 1 :: rest => do
      let (x, r) ← dec rest
      some (some x, r)
  | _ => none

/-- Canonical encoding of a sequence: 8-byte count then the elements. -/
def encList {α : Type} (enc : α → Bytes) (xs : List α) : Bytes :=
  encU64 xs.length ++ (xs.map enc).flatten

def decListN {α : Type} (dec : Bytes → Option (α × Bytes)) : Nat → Bytes → Option (List α × Bytes)
  | 0, b => some ([], b)
  | n + 1, b => do
      let (x, b1) ← dec b
      let (xs, b2) ← decListN dec n b1
      some (x :: xs, b2)

def decList {α : Type} (dec : Bytes → Option (α × Bytes)) (b : Bytes) :
    Option (List α × Bytes) := do
  let (n, r) ← decU64 b
  decListN dec n r

lemma decU64_encU64 (n : Nat) (h : n < 2^64) (rest : Bytes) :
    decU64 (encU64 n ++ rest) = some (n, rest) := by
  simp [encU64, decU64]
  omega

lemma readBytes_append (l rest : Bytes) :
    readBytes l.length (l ++ rest) = some (l, rest) := by
  simp [readBytes]

lemma decBytes_encBytes (l : Bytes) (h : l.length < 2^64) (rest : Bytes) :
    decBytes (encBytes l ++ rest) = some (l, rest) := by
  simp only [decBytes, encBytes, List.append_assoc, decU64_encU64 _ h, Option.bind_eq_bind,
    Option.some_bind]
  exact readBytes_append l rest

lemma decOpt_encOpt {α : Type} (enc : α → Bytes) (dec : Bytes → Option (α × Bytes))
    (o : Option α) (hx : ∀ x ∈ o, ∀ rest, dec (enc x ++ rest) = some (x, rest))
    (rest : Bytes) :
    decOpt dec (encOpt enc o ++ rest) = some (o, rest) := by
  cases o with
  | none => simp [encOpt, decOpt]
  | some x =>
      simp [encOpt, decOpt, hx x rfl rest]

lemma decListN_encs {α : Type} (enc : α → Bytes) (dec : Bytes → Option (α × Bytes))
    (xs : List α) (hx : ∀ x ∈ xs, ∀ rest, dec (enc x ++ rest) = some (x, rest))
    (rest : Bytes) :
    decListN dec xs.length ((xs.map enc).flatten ++ rest) = some (xs, rest) := by
  induction xs with
  | nil => simp [decListN]
  | cons x xs ih =>
      have hx0 : ∀ rest, dec (enc x ++ rest) = some (x, rest) :=
        hx x (List.mem_cons_self x xs)
      have hxs : ∀ y ∈ xs, ∀ rest, dec (enc y ++ rest) = some (y, rest) :=
        fun y hy => hx y (List.mem_cons_of_mem x hy)
      simp [decListN, List.append_assoc, hx0, ih hxs]

lemma decList_encList {α : Type} (enc : α → Bytes) (dec : Bytes → Option (α × Bytes))
    (xs : List α) (hlen : xs.length < 2^64)
    (hx : ∀ x ∈ xs, ∀ rest, dec (enc x ++ rest) = some (x, rest)) (rest : Bytes) :
    decList dec (encList enc xs ++ rest) = some (xs, rest) := by
  simp only [decList, encList, List.append_assoc, decU64_encU64 _ hlen, Option.bind_eq_bind,
    Option.some_bind]
  exact decListN_encs enc dec xs hx rest

/-! ## Persisted consensus types and their canonical encodings -/

/-- Modelled from the spec: `Header` (spec §3) — parent_hash, proposer,
state_root, tx_root, receipt_root, height, gas_limit, gas_used, time,
extra (opaque bytes, optional in the source's `Header::new`), optional
seal-votes.  `types/block.rs` is not among the sources. -/
structure Header where
  parent_hash : Hash
  proposer : Address
  state_root : Hash
  tx_root : Hash
  receipt_root : Hash
  height : Height
  gas_limit : Nat
  gas_used : Nat
  time : Nat
  extra : Option Bytes
  votes : Option (List Signature)
deriving Repr, DecidableEq

/-- Modelled from the spec: `Block` = Header + ordered list of transactions
(spec §3); a transaction is consumed as its opaque encoded bytes. -/
structure Block where
  header : Header
  transactions : List Bytes
deriving Repr, DecidableEq

/-- `struct Proposal(pub Block)` (src/consensus/types.rs:17). -/
structure Proposal where
  block : Block
deriving Repr, DecidableEq

/-- `struct Subject { view: View, digest: Hash }` (src/consensus/types.rs:117-120). -/
structure Subject where
  view : View
  digest : Hash
deriving Repr, DecidableEq

/-- `struct PrePrepare { view: View, proposal: Proposal }`
(src/consensus/types.rs:147-150). -/
structure PrePrepare where
  view : View
  proposal : Proposal
deriving Repr, DecidableEq

def View.encode (v : View) : Bytes := encU64 v.round ++ encU64 v.height

def View.decodeR (b : Bytes) : Option (View × Bytes) := do
  let (r, b1) ← decU64 b
  let (h, b2) ← decU64 b1
  some (⟨r, h⟩, b2)

def View.decode (b : Bytes) : Option View := (View.decodeR b).map Prod.fst

def Subject.encode (s : Subject) : Bytes := s.view.encode ++ encBytes s.digest

def Subject.decodeR (b : Bytes) : Option (Subject × Bytes) := do
  let (v, b1) ← View.decodeR b
  let (d, b2) ← decBytes b1
  some (⟨v, d⟩, b2)

def Subject.decode (b : Bytes) : Option Subject := (Subject.decodeR b).map Prod.fst

def Header.encode (h : Header) : Bytes :=
  encBytes h.parent_hash ++ encBytes h.proposer ++ encBytes h.state_root ++
  encBytes h.tx_root ++ encBytes h.receipt_root ++ encU64 h.height ++
  encU64 h.gas_limit ++ encU64 h.gas_used ++ encU64 h.time ++
  encOpt encBytes h.extra ++ encOpt (encList encBytes) h.votes

def Header.decodeR (b : Bytes) : Option (Header × Bytes) := do
  let (parent_hash, b) ← decBytes b
  let (proposer, b) ← decBytes b
  let (state_root, b) ← decBytes b
  let (tx_root, b) ← decBytes b
  let (receipt_root, b) ← decBytes b
  let (height, b) ← decU64 b
  let (gas_limit, b) ← decU64 b
  let (gas_used, b) ← decU64 b
  let (time, b) ← decU64 b
  let (extra, b) ← decOpt decBytes b
  let (votes, b) ← decOpt (decList decBytes) b
  some (⟨parent_hash, proposer, state_root, tx_root, receipt_root, height,
         gas_limit, gas_used, time, extra, votes⟩, b)

def Block.encode (b : Block) : Bytes :=
  b.header.encode ++ encList encBytes b.transactions

def Block.decodeR (b : Bytes) : Option (Block × Bytes) := do
  let (h, b1) ← Header.decodeR b
  let (txs, b2) ← decList decBytes b1
  some (⟨h, txs⟩, b2)

def Proposal.encode (p : Proposal) : Bytes := p.block.encode

def Proposal.decodeR (b : Bytes) : Option (Proposal × Bytes) := do
  let (bl, b1) ← Block.decodeR b
  some (⟨bl⟩, b1)

def Proposal.decode (b : Bytes) : Option Proposal := (Proposal.decodeR b).map Prod.fst

def PrePrepare.encode (pp : PrePrepare) : Bytes :=
  pp.view.encode ++ pp.proposal.encode

def PrePrepare.decodeR (b : Bytes) : Option (PrePrepare × Bytes) := do
  let (v, b1) ← View.decodeR b
  let (p, b2) ← Proposal.decodeR b1
  some (⟨v, p⟩, b2)

def PrePrepare.decode (b : Bytes) : Option PrePrepare := (PrePrepare.decodeR b).map Prod.fst

/-- Modelled from the spec: the opaque digest `H`; `hash(x) = H(encode(x))`
(spec §4.1), with `H` a fixed function of the bytes reduced into a 256-bit
value. -/
def digestOf (b : Bytes) : Nat := b.foldl (fun a c => (a * 131 + c) % 2 ^ 256) 7

def View.hash (v : View) : Nat := digestOf v.encode
def Subject.hash (s : Subject) : Nat := digestOf s.encode
def Proposal.hash (p : Proposal) : Nat := digestOf p.encode
def PrePrepare.hash (pp : PrePrepare) : Nat := digestOf pp.encode

/-- `u64` range invariant: the Rust fields are machine integers. -/
def View.wf (v : View) : Prop := v.round < 2^64 ∧ v.height < 2^64

def Subject.wf (s : Subject) : Prop := s.view.wf ∧ s.digest.length < 2^64

def Header.wf (h : Header) : Prop :=
  h.parent_hash.length < 2^64 ∧ h.proposer.length < 2^64 ∧
  h.state_root.length < 2^64 ∧ h.tx_root.length < 2^64 ∧
  h.receipt_root.length < 2^64 ∧ h.height < 2^64 ∧ h.gas_limit < 2^64 ∧
  h.gas_used < 2^64 ∧ h.time < 2^64 ∧
  (∀ e ∈ h.extra, e.length < 2^64) ∧
  (∀ vs ∈ h.votes, vs.length < 2^64 ∧ ∀ s ∈ vs, s.length < 2^64)

def Block.wf (b : Block) : Prop :=
  b.header.wf ∧ b.transactions.length < 2^64 ∧
  ∀ t ∈ b.transactions, t.length < 2^64

def Proposal.wf (p : Proposal) : Prop := p.block.wf

def PrePrepare.wf (pp : PrePrepare) : Prop := pp.view.wf ∧ pp.proposal.wf

lemma decodeR_encode_view (v : View) (hw : v.wf) (rest : Bytes) :
    View.decodeR (v.encode ++ rest) = some (v, rest) := by
  obtain ⟨w1, w2⟩ := hw
  simp [View.encode, View.decodeR, List.append_assoc, decU64_encU64 _ w1, decU64_encU64 _ w2]

lemma decodeR_encode_subject (s : Subject) (hw : s.wf) (rest : Bytes) :
    Subject.decodeR (s.encode ++ rest) = some (s, rest) := by
  obtain ⟨w1, w2⟩ := hw
  simp [Subject.encode, Subject.decodeR, List.append_assoc, decodeR_encode_view s.view w1,
    decBytes_encBytes _ w2]

set_option maxHeartbeats 1600000 in
lemma decodeR_encode_header (h : Header) (hw : h.wf) (rest : Bytes) :
    Header.decodeR (h.encode ++ rest) = some (h, rest) := by
  obtain ⟨w1, w2, w3, w4, w5, w6, w7, w8, w9, w10, w11⟩ := hw
  have hextra : ∀ r, decOpt decBytes (encOpt encBytes h.extra ++ r) = some (h.extra, r) :=
    decOpt_encOpt encBytes decBytes h.extra
      (fun x hx r => decBytes_encBytes x (w10 x hx) r)
  have hvotes : ∀ r,
      decOpt (decList decBytes) (encOpt (encList encBytes) h.votes ++ r) = some (h.votes, r) :=
    decOpt_encOpt (encList encBytes) (decList decBytes) h.votes
      (fun vs hvs r => decList_encList encBytes decBytes vs (w11 vs hvs).1
        (fun s hs r' => decBytes_encBytes s ((w11 vs hvs).2 s hs) r') r)
  simp [Header.encode, Header.decodeR, List.append_assoc,
    decBytes_encBytes _ w1, decBytes_encBytes _ w2, decBytes_encBytes _ w3,
    decBytes_encBytes _ w4, decBytes_encBytes _ w5,
    decU64_encU64 _ w6, decU64_encU64 _ w7, decU64_encU64 _ w8, decU64_encU64 _ w9,
    hextra, hvotes]

lemma decodeR_encode_block (b : Block) (hw : b.wf) (rest : Bytes) :
    Block.decodeR (b.encode ++ rest) = some (b, rest) := by
  obtain ⟨w1, w2, w3⟩ := hw
  have htxs : ∀ r, decList decBytes (encList encBytes b.transactions ++ r) =
      some (b.transactions, r) :=
    fun r => decList_encList encBytes decBytes b.transactions w2
      (fun t ht r' => decBytes_encBytes t (w3 t ht) r') r
  simp [Block.encode, Block.decodeR, List.append_assoc, decodeR_encode_header b.header w1, htxs]

lemma decodeR_encode_proposal (p : Proposal) (hw : p.wf) (rest : Bytes) :
    Proposal.decodeR (p.encode ++ rest) = some (p, rest) := by
  simp [Proposal.encode, Proposal.decodeR, decodeR_encode_block p.block hw]

lemma decodeR_encode_preprepare (pp : PrePrepare) (hw : pp.wf) (rest : Bytes) :
    PrePrepare.decodeR (pp.encode ++ rest) = some (pp, rest) := by
  obtain ⟨w1, w2⟩ := hw
  simp [PrePrepare.encode, PrePrepare.decodeR, List.append_assoc,
    decodeR_encode_view pp.view w1, decodeR_encode_proposal pp.proposal w2]

/-- C2: Codec round-trip for the persisted consensus types View, Subject,
PrePrepare and Proposal: decoding the canonical encoding of a value yields
the value back, and the hash of the decoded value equals the hash of the
original. -/
theorem codec_roundtrip
    (v : View) (s : Subject) (pp : PrePrepare) (p : Proposal)
    (hv : v.wf) (hs : s.wf) (hpp : pp.wf) (hp : p.wf) :
    (View.decode v.encode = some v ∧
      (View.decode v.encode).map View.hash = some v.hash) ∧
    (Subject.decode s.encode = some s ∧
      (Subject.decode s.encode).map Subject.hash = some s.hash) ∧
    (PrePrepare.decode pp.encode = some pp ∧
      (PrePrepare.decode pp.encode).map PrePrepare.hash = some pp.hash) ∧
    (Proposal.decode p.encode = some p ∧
      (Proposal.decode p.encode).map Proposal.hash = some p.hash) := by
  have h1 : View.decode v.encode = some v := by
    simpa [View.decode] using congrArg (Option.map Prod.fst)
      (decodeR_encode_view v hv [])
  have h2 : Subject.decode s.encode = some s := by
    simpa [Subject.decode] using congrArg (Option.map Prod.fst)
      (decodeR_encode_subject s hs [])
  have h3 : PrePrepare.decode pp.encode = some pp := by
    simpa [PrePrepare.decode] using congrArg (Option.map Prod.fst)
      (decodeR_encode_preprepare pp hpp [])
  have h4 : Proposal.decode p.encode = some p := by
    simpa [Proposal.decode] using congrArg (Option.map Prod.fst)
      (decodeR_encode_proposal p hp [])
  exact ⟨⟨h1, by simp [h1]⟩, ⟨h2, by simp [h2]⟩, ⟨h3, by simp [h3]⟩, ⟨h4, by simp [h4]⟩⟩

/-- Concrete values exercising `codec_roundtrip`. -/
def vW : View := ⟨0, 1⟩
def sW : Subject := ⟨⟨1, 2⟩, [3, 4]⟩
def hdrW : Header := ⟨[0], [1], [2], [3], [4], 5, 6, 7, 8, some [9], some [[10], [11]]⟩
def pW : Proposal := ⟨⟨hdrW, [[12]]⟩⟩
def ppW : PrePrepare := ⟨⟨2, 3⟩, pW⟩

lemma vW_wf : vW.wf := by norm_num [View.wf, vW]

lemma sW_wf : sW.wf := by norm_num [Subject.wf, View.wf, sW]

lemma hdrW_wf : hdrW.wf := by
  refine ⟨?_, ?_, ?_, ?_, ?_, ?_, ?_, ?_, ?_, ?_, ?_⟩ <;> simp [hdrW]

lemma pW_wf : pW.wf := by
  refine ⟨hdrW_wf, ?_, ?_⟩ <;> simp [pW]

lemma ppW_wf : ppW.wf := ⟨by norm_num [View.wf, ppW], pW_wf⟩

/-- Witness for C2 at concrete values of each of the four types. -/
theorem codec_roundtrip_witness :
    (View.decode vW.encode = some vW ∧
      (View.decode vW.encode).map View.hash = some vW.hash) ∧
    (Subject.decode sW.encode = some sW ∧
      (Subject.decode sW.encode).map Subject.hash = some sW.hash) ∧
    (PrePrepare.decode ppW.encode = some ppW ∧
      (PrePrepare.decode ppW.encode).map PrePrepare.hash = some ppW.hash) ∧
    (Proposal.decode pW.encode = some pW ∧
      (Proposal.decode pW.encode).map Proposal.hash = some pW.hash) :=
  codec_roundtrip vW sW ppW pW vW_wf sW_wf ppW_wf pW_wf

/-! ## Store: `IndexType` discriminants (src/store/base_index.rs) -/

/-- `enum IndexType` (src/store/base_index.rs:17-27). -/
inductive IndexType
  | entry
  | keySet
  | list
  | sparseList
  | map
  | proofList
  | proofMap
  | valueSet
deriving Repr, DecidableEq

/-- Outcome of `From<u8> for IndexType`: either a constructed value, or the
`panic!("Unreachable pattern ... Storage data is probably corrupted")` arm.
A panic aborts; it is not a value returned to the caller. -/
inductive U8Decode
  | ok (t : IndexType)
  | panicked
deriving Repr, DecidableEq

def U8Decode.isPanic : U8Decode → Bool
  | .ok _ => false
  | .panicked => true

/-- `impl From<u8> for IndexType` (src/store/base_index.rs:29-48). -/
def IndexType.fromU8 : Nat → U8Decode
  | 0 => .ok .entry
  | 1 => .ok .keySet
  | 2 => .ok .list
  | 3 => .ok .sparseList
  | 4 => .ok .map
  | 5 => .ok .proofList
  | 6 => .ok .proofMap
  | 7 => .ok .valueSet
  | _ => .panicked

/-- C3 counterexample: at the concrete unknown discriminant 8 the
conversion panics (`U8Decode.panicked`), so it does not return a
`CorruptedBytes` error value to the caller — the only non-panic outcomes
of `From<u8> for IndexType` are successful `IndexType` values, and byte 8
produces none of them. -/
theorem indexType_fromU8_eight_panics_not_error :
    IndexType.fromU8 8 = U8Decode.panicked := by decide

/-- C3 (amended): for every byte outside `0..=7`, converting it to an
`IndexType` panics with a corrupted-storage message; it never yields a
successfully decoded value. -/
theorem indexType_unknown_discriminant_panics (b : Nat) (h : 8 ≤ b) :
    IndexType.fromU8 b = U8Decode.panicked ∧ ∀ t : IndexType, IndexType.fromU8 b ≠ U8Decode.ok t := by
  match b, h with
  | n + 8, _ => exact ⟨rfl, fun t h' => by cases h'⟩

/-- Witness for the amended C3 at the concrete byte 9. -/
theorem indexType_unknown_discriminant_panics_witness :
    IndexType.fromU8 9 = U8Decode.panicked ∧
      ∀ t : IndexType, IndexType.fromU8 9 ≠ U8Decode.ok t :=
  indexType_unknown_discriminant_panics 9 (by decide)

/-! ## Store: `BaseIndex` (src/store/base_index.rs) -/

/-- Outcome of a Rust computation that may `panic!` (out-of-range slice,
`copy_from_slice` length mismatch, `unwrap()` on `Err`). -/
inductive PanicOr (α : Type)
  | ok (a : α)
  | panicked
deriving Repr, DecidableEq

/-- `struct BaseIndex` (src/store/base_index.rs:53-58), with the fields that
determine key construction: `name` (as its bytes), `index_id`,
`index_type`.  The `view: Arc<Database>` handle is passed separately to
each operation. -/
structure BaseIndexFull where
  name : Bytes
  index_id : Option Bytes
  index_type : IndexType
deriving Repr, DecidableEq

/-- `BaseIndex::new` (src/store/base_index.rs:84-91): sets `index_id: None`. -/
def BaseIndexFull.new (name : Bytes) (t : IndexType) : BaseIndexFull :=
  ⟨name, none, t⟩

/-- Writing `src` into `buf[start..start + src.len()]` (models
`copy_from_slice` with matching lengths and `StorageKey::write`). -/
def splice (buf : Bytes) (start : Nat) (src : Bytes) : Bytes :=
  buf.take start ++ src ++ buf.drop (start + src.length)

/-- `BaseIndex::prefix_key` (src/store/base_index.rs:94-107).  The buffer
is `vec![0; name_len + index_len + key.size()]`; the name is copied to
`[..name_len]`; when `index_id` is `Some`, the source copies it into
`prefix_key[name_len..index_len]` — that range panics when
`name_len > index_len`, and `copy_from_slice` panics when the destination
length `index_len - name_len` differs from `index_id.len()`; finally the
key is written at `[name_len + index_len..]`. -/
def prefix_key_impl (name : Bytes) (index_id : Option Bytes) (key : Bytes) : PanicOr Bytes :=
  let index_len := (index_id.map List.length).getD 0
  let name_len := name.length
  let buf0 := List.replicate (name_len + index_len + key.length) 0
  let buf1 := splice buf0 0 name
  match index_id with
  | none => .ok (splice buf1 (name_len + index_len) key)
  | some p =>
      if name_len ≤ index_len then
        if index_len - name_len = p.length then
          let buf2 := buf1.take name_len ++ p ++ buf1.drop index_len
          .ok (splice buf2 (name_len + index_len) key)
        else .panicked
      else .panicked

def BaseIndexFull.prefix_key (idx : BaseIndexFull) (key : Bytes) : PanicOr Bytes :=
  prefix_key_impl idx.name idx.index_id key

lemma prefix_key_impl_none (name key : Bytes) :
    prefix_key_impl name none key = .ok (name ++ key) := by
  simp only [prefix_key_impl, splice, Option.map_none, Option.getD_none]
  congr 1
  simp [List.take_replicate, List.drop_replicate, List.take_append, List.drop_append]

/-- C10: a `BaseIndex` built by `BaseIndex::new` has `index_id = None` (and
no operation ever sets it), so `prefix_key(k)` returns exactly the index
name's bytes followed by `k`'s bytes without panicking; whereas the
`index_id` copy branch, for a `Some` non-empty `index_id` and a non-empty
name, panics on the slice bounds or the `copy_from_slice` length
mismatch. -/
theorem prefix_key_new_no_panic (name : Bytes) (t : IndexType) (key p : Bytes)
    (hn : name ≠ []) (_hp : p ≠ []) :
    (BaseIndexFull.new name t).index_id = none ∧
    (BaseIndexFull.new name t).prefix_key key = .ok (name ++ key) ∧
    prefix_key_impl name (some p) key = .panicked := by
  refine ⟨rfl, prefix_key_impl_none name key, ?_⟩
  have hn' : 0 < name.length := List.length_pos.mpr hn
  simp only [prefix_key_impl]
  rw [show (Option.map List.length (some p)).getD 0 = p.length from rfl]
  by_cases hle : name.length ≤ p.length
  · rw [if_pos hle, if_neg (by omega)]
  · rw [if_neg hle]

/-- Witness for C10: index name `"t"` (byte 116), key byte 107, stray
`index_id` candidate `[1]`. -/
theorem prefix_key_new_no_panic_witness :
    (BaseIndexFull.new [116] IndexType.map).index_id = none ∧
    (BaseIndexFull.new [116] IndexType.map).prefix_key [107] = .ok [116, 107] ∧
    prefix_key_impl [116] (some [1]) [107] = .panicked :=
  prefix_key_new_no_panic [116] IndexType.map [107] [1] (by decide) (by decide)

/-- Modelled from the spec: the ordered byte-keyed KV store (spec §6,
"Store contract"): `get(key) -> Option<bytes>`, with writes applied as
batches.  Modelled as an association list; a put shadows older entries, a
delete removes the key. -/
abbrev DbMap := List (Bytes × Bytes)

def dbGet (m : DbMap) (k : Bytes) : Option Bytes :=
  (m.find? (fun p => p.1 == k)).map Prod.snd

def dbPut (m : DbMap) (k v : Bytes) : DbMap := (k, v) :: m

def dbDel (m : DbMap) (k : Bytes) : DbMap :=
  m.filter (fun p => !(p.1 == k))

/-- Modelled from the spec: a `StorageValue` implementation — the
canonical codec of a typed value (spec §4.1): `encode = into_bytes`,
`decode = from_bytes` (`none` standing for the abort on corrupt bytes). -/
structure Codec (V : Type) where
  encode : V → Bytes
  decode : Bytes → Option V

/-- `Vec<u8>` as a storage value: the identity codec. -/
def rawCodec : Codec Bytes := ⟨id, some⟩

/-- A `BaseIndex` as constructed by `BaseIndex::new`: `index_id = None`
always (theorem `prefix_key_new_no_panic`), under which
`prefix_key(k) = name ++ k` (lemma `prefix_key_impl_none`). -/
structure BaseIndex where
  name : Bytes
  index_type : IndexType
deriving Repr, DecidableEq

/-- `BaseIndex::prefix_key` for a `new`-constructed index (the reachable,
panic-free branch). -/
def BaseIndex.prefix_key (idx : BaseIndex) (key : Bytes) : Bytes :=
  idx.name ++ key

lemma prefix_key_impl_agrees (idx : BaseIndex) (key : Bytes) :
    prefix_key_impl idx.name none key = .ok (idx.prefix_key key) :=
  prefix_key_impl_none idx.name key

/-- `BaseIndex::get` (src/store/base_index.rs:113-123): read the prefixed
key, decode the value on a hit. -/
def BaseIndex.get {V : Type} (c : Codec V) (idx : BaseIndex) (m : DbMap) (key : Bytes) :
    Option V :=
  match dbGet m (idx.prefix_key key) with
  | some bytes => c.decode bytes
  | none => none

/-- `BaseIndex::contains` (src/store/base_index.rs:125-130). -/
def BaseIndex.contains (idx : BaseIndex) (m : DbMap) (key : Bytes) : Bool :=
  (dbGet m (idx.prefix_key key)).isSome

/-- `BaseIndex::put` (src/store/base_index.rs:192-202): write
`value.into_bytes()` at the prefixed key (transaction + flush). -/
def BaseIndex.put {V : Type} (c : Codec V) (idx : BaseIndex) (m : DbMap) (key : Bytes)
    (v : V) : DbMap :=
  dbPut m (idx.prefix_key key) (c.encode v)

/-- `BaseIndex::remove` (src/store/base_index.rs:204-213). -/
def BaseIndex.remove (idx : BaseIndex) (m : DbMap) (key : Bytes) : DbMap :=
  dbDel m (idx.prefix_key key)

lemma dbGet_dbPut_same (m : DbMap) (k v : Bytes) : dbGet (dbPut m k v) k = some v := by
  simp [dbGet, dbPut, List.find?]

lemma dbGet_dbPut_other (m : DbMap) (k v k' : Bytes) (h : k' ≠ k) :
    dbGet (dbPut m k v) k' = dbGet m k' := by
  have hk : (k == k') = false := beq_eq_false_iff_ne.mpr (fun hh => h hh.symm)
  simp [dbGet, dbPut, List.find?, hk]

lemma dbGet_dbDel_same (m : DbMap) (k : Bytes) : dbGet (dbDel m k) k = none := by
  have hfind : List.find? (fun p => p.1 == k) (m.filter (fun p => !(p.1 == k))) = none := by
    rw [List.find?_eq_none]
    intro p hp
    have := List.of_mem_filter hp
    simpa using this
  simp [dbGet, dbDel, hfind]

lemma find?_filter_not (m : DbMap) (k k' : Bytes) (h : k' ≠ k) :
    List.find? (fun p => p.1 == k') (m.filter (fun p => !(p.1 == k))) =
      List.find? (fun p => p.1 == k') m := by
  have hkk : (k == k') = false := beq_eq_false_iff_ne.mpr (Ne.symm h)
  induction m with
  | nil => rfl
  | cons p m ih =>
      rcases eq_or_ne p.1 k with hk | hk
      · simp [List.filter_cons, List.find?_cons, hk, hkk, ih]
      · rcases eq_or_ne p.1 k' with hk' | hk'
        · simp [List.filter_cons, List.find?_cons, hk, hk', h]
        · simp [List.filter_cons, List.find?_cons, hk, hk', h, ih]

lemma dbGet_dbDel_other (m : DbMap) (k k' : Bytes) (h : k' ≠ k) :
    dbGet (dbDel m k) k' = dbGet m k' := by
  unfold dbGet dbDel
  rw [find?_filter_not m k k' h]

lemma dbGet_nil (k : Bytes) : dbGet ([] : DbMap) k = none := rfl

/-- C7: Store read-your-writes for `BaseIndex`: after `put(k, v)`,
`get(k)` returns `Some(v)` and `contains(k)` is true; after `remove(k)`,
`get(k)` returns `None` and `contains(k)` is false; `get` on a key never
written (empty store) returns `None`. -/
theorem base_index_read_your_writes {V : Type} (c : Codec V) (idx : BaseIndex)
    (m : DbMap) (k : Bytes) (v : V)
    (hc : c.decode (c.encode v) = some v) :
    BaseIndex.get c idx (BaseIndex.put c idx m k v) k = some v ∧
    BaseIndex.contains idx (BaseIndex.put c idx m k v) k = true ∧
    BaseIndex.get c idx (BaseIndex.remove idx m k) k = none ∧
    BaseIndex.contains idx (BaseIndex.remove idx m k) k = false ∧
    BaseIndex.get c idx ([] : DbMap) k = none := by
  refine ⟨?_, ?_, ?_, ?_, ?_⟩
  · simp [BaseIndex.get, BaseIndex.put, dbGet_dbPut_same, hc]
  · simp [BaseIndex.contains, BaseIndex.put, dbGet_dbPut_same]
  · simp [BaseIndex.get, BaseIndex.remove, dbGet_dbDel_same]
  · simp [BaseIndex.contains, BaseIndex.remove, dbGet_dbDel_same]
  · simp [BaseIndex.get, dbGet_nil]

/-- Witness for C7: index `"t"` (byte 116), key `[107]`, value `[42]`,
over a store already holding an unrelated entry. -/
theorem base_index_read_your_writes_witness :
    BaseIndex.get rawCodec ⟨[116], .map⟩
      (BaseIndex.put rawCodec ⟨[116], .map⟩ [([0], [1])] [107] [42]) [107] = some [42] ∧
    BaseIndex.contains ⟨[116], .map⟩
      (BaseIndex.put rawCodec ⟨[116], .map⟩ [([0], [1])] [107] [42]) [107] = true ∧
    BaseIndex.get rawCodec ⟨[116], .map⟩
      (BaseIndex.remove ⟨[116], .map⟩ [([0], [1])] [107]) [107] = none ∧
    BaseIndex.contains ⟨[116], .map⟩
      (BaseIndex.remove ⟨[116], .map⟩ [([0], [1])] [107]) [107] = false ∧
    BaseIndex.get rawCodec ⟨[116], .map⟩ ([] : DbMap) [107] = none :=
  base_index_read_your_writes rawCodec ⟨[116], .map⟩ [([0], [1])] [107] [42] rfl

/-- C8 counterexample: the indexes named `"a"` (`[97]`) and `"ab"`
(`[97, 98]`) have different names, yet index `"a"` with key `[98]` and
index `"ab"` with key `[]` generate the same underlying database key
`[97, 98]`, and a `put` through the first changes the result of a `get`
through the second (which was `None` on the empty store). -/
theorem keyspace_overlap_counterexample :
    ([97] : Bytes) ≠ [97, 98] ∧
    BaseIndex.prefix_key ⟨[97], .map⟩ [98] = BaseIndex.prefix_key ⟨[97, 98], .map⟩ [] ∧
    BaseIndex.get rawCodec ⟨[97, 98], .map⟩ ([] : DbMap) [] = none ∧
    BaseIndex.get rawCodec ⟨[97, 98], .map⟩
      (BaseIndex.put rawCodec ⟨[97], .map⟩ [] [98] [42]) [] = some [42] := by
  refine ⟨by decide, by decide, rfl, rfl⟩

/-- C8 (amended): keyspaces of two `BaseIndex` instances never interfere
when neither index name is a prefix of the other: the generated database
keys differ, and a `put` or `remove` through one index never changes the
result of a `get` through the other. -/
theorem keyspace_disjoint_prefix_free {V : Type} (c : Codec V) (idxA idxB : BaseIndex)
    (m : DbMap) (kA kB : Bytes) (v : V)
    (h1 : idxA.name.isPrefixOf idxB.name = false)
    (h2 : idxB.name.isPrefixOf idxA.name = false) :
    idxA.prefix_key kA ≠ idxB.prefix_key kB ∧
    BaseIndex.get c idxB (BaseIndex.put c idxA m kA v) kB = BaseIndex.get c idxB m kB ∧
    BaseIndex.get c idxB (BaseIndex.remove idxA m kA) kB = BaseIndex.get c idxB m kB := by
  have hne : idxA.prefix_key kA ≠ idxB.prefix_key kB := by
    intro h
    unfold BaseIndex.prefix_key at h
    rcases List.append_eq_append_iff.mp h with ⟨a, ha, _⟩ | ⟨a, ha, _⟩
    · exact absurd (List.isPrefixOf_iff_prefix.mpr ⟨a, ha.symm⟩) (by simp [h1])
    · exact absurd (List.isPrefixOf_iff_prefix.mpr ⟨a, ha.symm⟩) (by simp [h2])
  refine ⟨hne, ?_, ?_⟩
  · simp [BaseIndex.get, BaseIndex.put, dbGet_dbPut_other _ _ _ _ (Ne.symm hne)]
  · simp [BaseIndex.get, BaseIndex.remove, dbGet_dbDel_other _ _ _ (Ne.symm hne)]

/-- Witness for the amended C8: names `"b"` and `"c"`, neither a prefix of
the other. -/
theorem keyspace_disjoint_prefix_free_witness :
    BaseIndex.prefix_key ⟨[98], .map⟩ [5] ≠ BaseIndex.prefix_key ⟨[99], .map⟩ [6] ∧
    BaseIndex.get rawCodec ⟨[99], .map⟩
        (BaseIndex.put rawCodec ⟨[98], .map⟩ [([99, 6], [1])] [5] [42]) [6] =
      BaseIndex.get rawCodec ⟨[99], .map⟩ [([99, 6], [1])] [6] ∧
    BaseIndex.get rawCodec ⟨[99], .map⟩
        (BaseIndex.remove ⟨[98], .map⟩ [([99, 6], [1])] [5]) [6] =
      BaseIndex.get rawCodec ⟨[99], .map⟩ [([99, 6], [1])] [6] :=
  keyspace_disjoint_prefix_free rawCodec ⟨[98], .map⟩ ⟨[99], .map⟩
    [([99, 6], [1])] [5] [6] [42] (by decide) (by decide)

/-! ## Store errors are fatal (C6)

The `BaseIndex` operations call `.unwrap()` on every `Result` coming back
from the database (`get`, `write`, `flush`); an `Err` therefore panics
instead of being returned. -/

/-- Modelled from the spec: the KV handle with fallible primitives — §6
store contract `get(key) -> Option<bytes>`, `write(batch) -> Result`,
`flush() -> Result`, each of which may fail with an I/O error.  A batch
entry `(k, some v)` is `put_vec`, `(k, none)` is `delete`. -/
structure ErrDb where
  dbGetE : Bytes → Except String (Option Bytes)
  dbWriteE : List (Bytes × Option Bytes) → Except String Unit
  dbFlushE : Unit → Except String Unit

/-- `Result::unwrap`: the value on `Ok`, a panic on `Err`. -/
def unwrapE {α : Type} : Except String α → PanicOr α
  | .ok a => .ok a
  | .error _ => .panicked

/-- `BaseIndex::get` over the fallible store
(src/store/base_index.rs:113-123): `self.view.get(COL, &key).unwrap()`,
then `StorageValue::from_bytes` on a hit (which aborts on corrupt
bytes). -/
def BaseIndex.getE {V : Type} (c : Codec V) (idx : BaseIndex) (db : ErrDb) (key : Bytes) :
    PanicOr (Option V) :=
  match unwrapE (db.dbGetE (idx.prefix_key key)) with
  | .panicked => .panicked
  | .ok none => .ok none
  | .ok (some bytes) =>
      match c.decode bytes with
      | some v => .ok (some v)
      | none => .panicked

/-- `BaseIndex::contains` over the fallible store
(src/store/base_index.rs:125-130). -/
def BaseIndex.containsE (idx : BaseIndex) (db : ErrDb) (key : Bytes) : PanicOr Bool :=
  match unwrapE (db.dbGetE (idx.prefix_key key)) with
  | .panicked => .panicked
  | .ok o => .ok o.isSome

/-- `self.view.write(tx).unwrap(); self.view.flush().unwrap()` — the common
tail of `put_transaction`, `put`, `remove` and `clear`
(src/store/base_index.rs:187-225). -/
def writeFlush (db : ErrDb) (tx : List (Bytes × Option Bytes)) : PanicOr Unit :=
  match unwrapE (db.dbWriteE tx) with
  | .panicked => .panicked
  | .ok _ => unwrapE (db.dbFlushE ())

/-- `BaseIndex::put` over the fallible store (src/store/base_index.rs:192-202). -/
def BaseIndex.putE {V : Type} (c : Codec V) (idx : BaseIndex) (db : ErrDb) (key : Bytes)
    (v : V) : PanicOr Unit :=
  writeFlush db [(idx.prefix_key key, some (c.encode v))]

/-- `BaseIndex::remove` over the fallible store (src/store/base_index.rs:204-213). -/
def BaseIndex.removeE (idx : BaseIndex) (db : ErrDb) (key : Bytes) : PanicOr Unit :=
  writeFlush db [(idx.prefix_key key, none)]

/-- `BaseIndex::put_transaction` (src/store/base_index.rs:187-190). -/
def BaseIndex.put_transactionE (db : ErrDb) (tx : List (Bytes × Option Bytes)) :
    PanicOr Unit :=
  writeFlush db tx

/-- `BaseIndex::clear` (src/store/base_index.rs:215-225): deletes every
iterated key in one transaction; `entries` are the pairs yielded by
`iter_from_prefix`. -/
def BaseIndex.clearE (db : ErrDb) (entries : List (Bytes × Bytes)) : PanicOr Unit :=
  writeFlush db (entries.map (fun e => (e.1, none)))

/-- C6: a store error is fatal — for every `BaseIndex` operation, if the
underlying database returns an error on read (`dbr`), on write (`dbw`) or
on flush (`dbf`), the operation panics instead of returning an error value
to the caller. -/
theorem base_index_store_error_panics {V : Type} (c : Codec V) (idx : BaseIndex)
    (dbr dbw dbf : ErrDb) (key : Bytes) (v : V)
    (tx : List (Bytes × Option Bytes)) (entries : List (Bytes × Bytes)) (e ew ef : String)
    (hr : dbr.dbGetE (idx.prefix_key key) = .error e)
    (hw : ∀ t, dbw.dbWriteE t = .error ew)
    (hfw : ∀ t, dbf.dbWriteE t = .ok ())
    (hf : dbf.dbFlushE () = .error ef) :
    BaseIndex.getE c idx dbr key = .panicked ∧
    BaseIndex.containsE idx dbr key = .panicked ∧
    BaseIndex.putE c idx dbw key v = .panicked ∧
    BaseIndex.removeE idx dbw key = .panicked ∧
    BaseIndex.put_transactionE dbw tx = .panicked ∧
    BaseIndex.clearE dbw entries = .panicked ∧
    BaseIndex.putE c idx dbf key v = .panicked ∧
    BaseIndex.removeE idx dbf key = .panicked ∧
    BaseIndex.put_transactionE dbf tx = .panicked ∧
    BaseIndex.clearE dbf entries = .panicked := by
  refine ⟨?_, ?_, ?_, ?_, ?_, ?_, ?_, ?_, ?_, ?_⟩ <;>
    simp [BaseIndex.getE, BaseIndex.containsE, BaseIndex.putE, BaseIndex.removeE,
      BaseIndex.put_transactionE, BaseIndex.clearE, writeFlush, unwrapE, hr, hw, hfw, hf]

/-- A database whose reads fail. -/
def dbrW : ErrDb := ⟨fun _ => .error "io", fun _ => .ok (), fun _ => .ok ()⟩

/-- A database whose writes fail. -/
def dbwW : ErrDb := ⟨fun _ => .ok none, fun _ => .error "io", fun _ => .ok ()⟩

/-- A database whose flushes fail. -/
def dbfW : ErrDb := ⟨fun _ => .ok none, fun _ => .ok (), fun _ => .error "io"⟩

/-- Witness for C6 on concrete failing databases. -/
theorem base_index_store_error_panics_witness :
    BaseIndex.getE rawCodec ⟨[116], .map⟩ dbrW [107] = .panicked ∧
    BaseIndex.containsE ⟨[116], .map⟩ dbrW [107] = .panicked ∧
    BaseIndex.putE rawCodec ⟨[116], .map⟩ dbwW [107] [42] = .panicked ∧
    BaseIndex.removeE ⟨[116], .map⟩ dbwW [107] = .panicked ∧
    BaseIndex.put_transactionE dbwW [] = .panicked ∧
    BaseIndex.clearE dbwW [([116], [9])] = .panicked ∧
    BaseIndex.putE rawCodec ⟨[116], .map⟩ dbfW [107] [42] = .panicked ∧
    BaseIndex.removeE ⟨[116], .map⟩ dbfW [107] = .panicked ∧
    BaseIndex.put_transactionE dbfW [] = .panicked ∧
    BaseIndex.clearE dbfW [([116], [9])] = .panicked :=
  base_index_store_error_panics rawCodec ⟨[116], .map⟩ dbrW dbwW dbfW [107] [42]
    [] [([116], [9])] "io" "io" "io" rfl (fun _ => rfl) (fun _ => rfl) rfl

/-! ## `BaseIndexIter` (C9) -/

/-- `struct BaseIndexIter` (src/store/base_index.rs:60-67).  `base_iter`
is the remaining stream of `(full_key, value)` pairs produced by
`Database::iter_from_prefix` (modelled from the spec: iteration from a
prefix in key order); in `BaseIndex::iter` the `index_id` field is set to
the full iteration prefix `prefix_key(subpre)` and `base_prefix_len` to
the length of the index name plus the (absent) `index_id`. -/
structure BaseIndexIter where
  base_iter : List (Bytes × Bytes)
  base_prefix_len : Nat
  index_id : Bytes
  ended : Bool
deriving Repr, DecidableEq

/-- `BaseIndex::iter` (src/store/base_index.rs:132-147). -/
def BaseIndex.iter (idx : BaseIndex) (entries : List (Bytes × Bytes)) (subpre : Bytes) :
    BaseIndexIter :=
  { base_iter := entries
    base_prefix_len := idx.name.length
    index_id := idx.prefix_key subpre
    ended := false }

/-- `impl Iterator for BaseIndexIter` (src/store/base_index.rs:228-251):
if `ended`, `None`; otherwise consume the next underlying entry; a key
extending the prefix is yielded (as the key suffix past
`base_prefix_len`, with the value bytes, which `K::read` /
`V::from_bytes` then decode); anything else sets `ended`. -/
def BaseIndexIter.next (it : BaseIndexIter) : Option (Bytes × Bytes) × BaseIndexIter :=
  if it.ended then (none, it)
  else
    match it.base_iter with
    | (k, v) :: rest =>
        if it.index_id.isPrefixOf k then
          (some (k.drop it.base_prefix_len, v), { it with base_iter := rest })
        else
          (none, { it with base_iter := rest, ended := true })
    | [] => (none, { it with ended := true })

/-- The iterator state after `n` calls to `next`. -/
def BaseIndexIter.stepN : Nat → BaseIndexIter → BaseIndexIter
  | 0, it => it
  | n + 1, it => (BaseIndexIter.stepN n it).next.2

/-- The item returned by the `(n+1)`-st call to `next`. -/
def BaseIndexIter.outAt (it : BaseIndexIter) (n : Nat) : Option (Bytes × Bytes) :=
  (BaseIndexIter.stepN n it).next.1

lemma iter_next_ended (it : BaseIndexIter) (h : it.ended = true) : it.next = (none, it) := by
  simp [BaseIndexIter.next, h]

lemma iter_next_fields (it : BaseIndexIter) :
    it.next.2.index_id = it.index_id ∧ it.next.2.base_prefix_len = it.base_prefix_len := by
  unfold BaseIndexIter.next
  by_cases h : it.ended
  · simp [h]
  · cases hb : it.base_iter with
    | nil => simp [h, hb]
    | cons p rest =>
        obtain ⟨k, v⟩ := p
        by_cases hp : it.index_id.isPrefixOf k <;> simp [h, hb, hp]

lemma iter_next_mem (it : BaseIndexIter) :
    ∀ x ∈ it.next.2.base_iter, x ∈ it.base_iter := by
  unfold BaseIndexIter.next
  by_cases h : it.ended
  · simp [h]
  · cases hb : it.base_iter with
    | nil => simp [h, hb]
    | cons p rest =>
        obtain ⟨k, v⟩ := p
        by_cases hp : it.index_id.isPrefixOf k <;>
          · simp only [h, hb, hp]
            intro x hx
            simp at hx ⊢
            tauto

lemma iter_next_some (it : BaseIndexIter) (rk v : Bytes)
    (h : it.next.1 = some (rk, v)) :
    ∃ k rest, it.base_iter = (k, v) :: rest ∧ it.index_id.isPrefixOf k = true ∧
      rk = k.drop it.base_prefix_len := by
  unfold BaseIndexIter.next at h
  by_cases he : it.ended
  · simp [he] at h
  · cases hb : it.base_iter with
    | nil => simp [he, hb] at h
    | cons p rest =>
        obtain ⟨k, v'⟩ := p
        by_cases hp : it.index_id.isPrefixOf k
        · simp [he, hb, hp] at h
          obtain ⟨h1, h2⟩ := h
          refine ⟨k, rest, ?_, hp, h1.symm⟩
          simp only [hb, h2]
        · simp [he, hb, hp] at h

lemma iter_next_none_ended (it : BaseIndexIter) (h : it.next.1 = none) :
    it.next.2.ended = true := by
  unfold BaseIndexIter.next at h ⊢
  by_cases he : it.ended
  · simp [he]
  · cases hb : it.base_iter with
    | nil => simp [he, hb]
    | cons p rest =>
        obtain ⟨k, v⟩ := p
        by_cases hp : it.index_id.isPrefixOf k
        · simp [he, hb, hp] at h
        · simp [he, hb, hp]

lemma iter_stepN_fields (n : Nat) (it : BaseIndexIter) :
    (BaseIndexIter.stepN n it).index_id = it.index_id ∧
      (BaseIndexIter.stepN n it).base_prefix_len = it.base_prefix_len := by
  induction n with
  | zero => exact ⟨rfl, rfl⟩
  | succ n ih =>
      have h := iter_next_fields (BaseIndexIter.stepN n it)
      exact ⟨by rw [BaseIndexIter.stepN, h.1, ih.1], by rw [BaseIndexIter.stepN, h.2, ih.2]⟩

lemma iter_stepN_mem (n : Nat) (it : BaseIndexIter) :
    ∀ x ∈ (BaseIndexIter.stepN n it).base_iter, x ∈ it.base_iter := by
  induction n with
  | zero => exact fun x hx => hx
  | succ n ih =>
      intro x hx
      exact ih x (iter_next_mem (BaseIndexIter.stepN n it) x (by simpa [BaseIndexIter.stepN] using hx))

lemma iter_stepN_of_ended (n : Nat) (it : BaseIndexIter) (h : it.ended = true) :
    BaseIndexIter.stepN n it = it := by
  induction n with
  | zero => rfl
  | succ n ih => rw [BaseIndexIter.stepN, ih, iter_next_ended it h]

lemma iter_stepN_add (a b : Nat) (it : BaseIndexIter) :
    BaseIndexIter.stepN (a + b) it = BaseIndexIter.stepN a (BaseIndexIter.stepN b it) := by
  induction a with
  | zero => simp [BaseIndexIter.stepN]
  | succ a ih =>
      have hab : a + 1 + b = (a + b) + 1 := by omega
      rw [hab, BaseIndexIter.stepN, ih, BaseIndexIter.stepN]

/-- C9: a `BaseIndexIter` yields only entries whose full database key
starts with the iterator's prefix (`index_id`), and it is fused: once a
call to `next` returns `None` (prefix boundary crossed or stream
exhausted), every subsequent call returns `None`. -/
theorem base_index_iter_prefix_fused (it : BaseIndexIter) (n₁ n₂ m : Nat) (rk v : Bytes)
    (hsome : it.outAt n₁ = some (rk, v))
    (hnone : it.outAt n₂ = none)
    (hle : n₂ ≤ m) :
    (∃ k, (k, v) ∈ it.base_iter ∧ it.index_id.isPrefixOf k = true ∧
      rk = k.drop it.base_prefix_len) ∧
    it.outAt m = none := by
  constructor
  · obtain ⟨k, rest, hb, hp, hdrop⟩ := iter_next_some (BaseIndexIter.stepN n₁ it) rk v hsome
    have hf := iter_stepN_fields n₁ it
    refine ⟨k, ?_, by rw [← hf.1]; exact hp, by rw [← hf.2]; exact hdrop⟩
    exact iter_stepN_mem n₁ it (k, v) (by rw [hb]; exact List.mem_cons_self _ _)
  · rcases Nat.eq_or_lt_of_le hle with heq | hlt
    · rw [← heq]; exact hnone
    · have hend : (BaseIndexIter.stepN (n₂ + 1) it).ended = true := by
        rw [BaseIndexIter.stepN]
        exact iter_next_none_ended (BaseIndexIter.stepN n₂ it) hnone
      have hm : m = (m - (n₂ + 1)) + (n₂ + 1) := by omega
      unfold BaseIndexIter.outAt
      rw [hm, iter_stepN_add, iter_stepN_of_ended _ _ hend,
        iter_next_ended _ hend]

/-- Concrete iterator for the C9 witness: prefix `[7]`, one matching entry
then a non-matching one. -/
def itW : BaseIndexIter := ⟨[([7, 5], [9]), ([8], [1])], 1, [7], false⟩

/-- Witness for C9: the first call yields the suffix of a prefixed key;
the second call hits the boundary, and the fourth still returns `None`. -/
theorem base_index_iter_prefix_fused_witness :
    (∃ k, (k, [9]) ∈ itW.base_iter ∧ itW.index_id.isPrefixOf k = true ∧
      [5] = k.drop itW.base_prefix_len) ∧
    itW.outAt 3 = none :=
  base_index_iter_prefix_fused itW 0 1 3 [5] [9] rfl rfl (by omega)

/-! ## Genesis (src/core/genesis.rs) -/

/-- Modelled from the spec: a `Validator` is an address (spec §3). -/
structure Validator where
  address : Address
deriving Repr, DecidableEq

/-- `Validator::new(address)` (as called in src/core/genesis.rs:37). -/
def Validator.new (address : Address) : Validator := ⟨address⟩

abbrev Validators := List Validator

/-- Modelled from the spec: `LastMeta` — persisted (height, hash) of the
tip (spec §3). -/
structure LastMeta where
  height : Height
  hash : Nat
deriving Repr, DecidableEq

/-- `LastMeta::new_zero` (as in the tests of src/core/genesis.rs). -/
def LastMeta.new_zero : LastMeta := ⟨0, 0⟩

/-- Modelled from the spec: the canonical header form hashed for a block
excludes the seal-votes (spec §3). -/
def Header.withoutSeals (h : Header) : Header := { h with votes := none }

/-- Modelled from the spec: `block.hash() = H(encode(header_without_seals))`
(spec §3). -/
def Block.hash (b : Block) : Nat := digestOf (Header.encode b.header.withoutSeals)

/-- Modelled from the spec: the `Ledger` state (spec §4.3) — the persisted
chain ordered by height (heights `0..len-1`, spec invariant 1), the
validator list, and `LastMeta`.  `core/ledger.rs` is not among the
sources. -/
structure Ledger where
  blocks : List Block
  validators : Validators
  lastMeta : LastMeta
deriving Repr, DecidableEq

/-- Modelled from the spec: `Ledger::get_genesis_block` — the block at
height 0, if any. -/
def Ledger.get_genesis_block (l : Ledger) : Option Block := l.blocks.head?

/-- Modelled from the spec: `Ledger::reload_meta` — scan for the highest
contiguous height and set `LastMeta` to the tip (spec §4.3). -/
def Ledger.reload_meta (l : Ledger) : Ledger :=
  { l with lastMeta :=
      match l.blocks.getLast? with
      | some b => ⟨b.header.height, b.hash⟩
      | none => LastMeta.new_zero }

/-- Modelled from the spec: `Ledger::add_validators` — record the (single,
chain-wide) validator set (spec §4.3). -/
def Ledger.add_validators (l : Ledger) (vs : Validators) : Ledger :=
  { l with validators := l.validators ++ vs }

/-- Modelled from the spec: `Ledger::add_genesis_block(b)` — fails
(`AlreadyInitialized`) if any block exists (the caller in
src/core/genesis.rs:55 discards the result, so the failure leaves the
ledger unchanged); else persists `b` at height 0 and sets `LastMeta`
(spec §4.3). -/
def Ledger.add_genesis_block (l : Ledger) (b : Block) : Ledger :=
  match l.blocks with
  | [] => { l with blocks := [b], lastMeta := ⟨b.header.height, b.hash⟩ }
  | _ => l

/-- Modelled from the spec: `GenesisConfig` (spec §6 genesis format, with
the fields read by src/core/genesis.rs: `validator`, `proposer`,
`epoch_time`, `extra`, `gas_used`).  Addresses and the timestamp are
carried already parsed; `common::string_to_address` and the `chrono` date
parsing are external. -/
structure GenesisConfig where
  validator : List Address
  proposer : Address
  epoch_time : Nat
  extra : Bytes
  gas_used : Nat
deriving Repr, DecidableEq

/-- Modelled from the spec: `Header::new`, filling the spec §3 fields (the
source's two extra numeric arguments, not named by the spec, are
omitted). -/
def Header.new (parent_hash : Hash) (proposer : Address)
    (state_root tx_root receipt_root : Hash) (height : Height)
    (gas_limit gas_used : Nat) (time : Nat) (votes : Option (List Signature))
    (extra : Option Bytes) : Header :=
  ⟨parent_hash, proposer, state_root, tx_root, receipt_root, height,
   gas_limit, gas_used, time, extra, votes⟩

/-- Modelled from the spec: `Block::new(header, transactions)`. -/
def Block.new (h : Header) (txs : List Bytes) : Block := ⟨h, txs⟩

/-- `store_genesis_block` (src/core/genesis.rs:24-59): if a genesis block
already exists, log its hash, `reload_meta`, and return `Ok(())`;
otherwise add the configured validators, build the genesis header
(`EMPTY_HASH` parent and roots, height 0, `gas_limit = gas_used + 10`,
timestamp and extra bytes from the config, no seal votes), wrap it in a
block with no transactions, and persist it via `add_genesis_block`. -/
def store_genesis_block (genesis_config : GenesisConfig) (ledger : Ledger) :
    Except String Unit × Ledger :=
  match ledger.get_genesis_block with
  | some _ => (Except.ok (), ledger.reload_meta)
  | none =>
      let validators : Validators := genesis_config.validator.map Validator.new
      let ledger := ledger.add_validators validators
      let proposer := genesis_config.proposer
      let extra := genesis_config.extra
      let header := Header.new EMPTY_HASH proposer EMPTY_HASH EMPTY_HASH EMPTY_HASH
        0 (genesis_config.gas_used + 10) genesis_config.gas_used
        genesis_config.epoch_time none (some extra)
      let block := Block.new header []
      (Except.ok (), ledger.add_genesis_block block)

/-- C4: if a genesis block already exists, `store_genesis_block` ignores
the genesis config entirely: it reloads `LastMeta`, returns `Ok(())`, and
leaves the ledger otherwise unchanged — no validators added, no block
written. -/
theorem store_genesis_block_existing_genesis (cfg : GenesisConfig) (l : Ledger)
    (g : Block) (h : l.get_genesis_block = some g) :
    (store_genesis_block cfg l).1 = Except.ok () ∧
    (store_genesis_block cfg l).2 = l.reload_meta ∧
    (store_genesis_block cfg l).2.blocks = l.blocks ∧
    (store_genesis_block cfg l).2.validators = l.validators := by
  unfold store_genesis_block
  rw [h]
  exact ⟨rfl, rfl, rfl, rfl⟩

/-- A concrete initialized ledger for the C4 witness. -/
def gBW : Block :=
  Block.new (Header.new EMPTY_HASH [1] EMPTY_HASH EMPTY_HASH EMPTY_HASH 0 10 0 5 none none) []

def lInitW : Ledger := ⟨[gBW], [], ⟨0, 0⟩⟩

def cfgW : GenesisConfig := ⟨[[2]], [3], 7, [9], 4⟩

/-- Witness for C4 on a concrete initialized ledger. -/
theorem store_genesis_block_existing_genesis_witness :
    (store_genesis_block cfgW lInitW).1 = Except.ok () ∧
    (store_genesis_block cfgW lInitW).2 = lInitW.reload_meta ∧
    (store_genesis_block cfgW lInitW).2.blocks = lInitW.blocks ∧
    (store_genesis_block cfgW lInitW).2.validators = lInitW.validators :=
  store_genesis_block_existing_genesis cfgW lInitW gBW rfl

/-- The genesis block `store_genesis_block` constructs from the config. -/
def genesisBlockOf (cfg : GenesisConfig) : Block :=
  Block.new (Header.new EMPTY_HASH cfg.proposer EMPTY_HASH EMPTY_HASH EMPTY_HASH
    0 (cfg.gas_used + 10) cfg.gas_used cfg.epoch_time none (some cfg.extra)) []

/-- C5: on a ledger with no genesis block, `store_genesis_block` adds the
configured validators and persists a genesis block with height 0, parent
hash `EMPTY_HASH`, an empty transaction list, and proposer, timestamp and
extra bytes taken from the genesis config, setting `LastMeta` to it. -/
theorem store_genesis_block_fresh (cfg : GenesisConfig) (l : Ledger)
    (h : l.get_genesis_block = none) :
    (store_genesis_block cfg l).1 = Except.ok () ∧
    (store_genesis_block cfg l).2.blocks = [genesisBlockOf cfg] ∧
    (genesisBlockOf cfg).header.height = 0 ∧
    (genesisBlockOf cfg).header.parent_hash = EMPTY_HASH ∧
    (genesisBlockOf cfg).transactions = [] ∧
    (genesisBlockOf cfg).header.proposer = cfg.proposer ∧
    (genesisBlockOf cfg).header.time = cfg.epoch_time ∧
    (genesisBlockOf cfg).header.extra = some cfg.extra ∧
    (store_genesis_block cfg l).2.validators =
      l.validators ++ cfg.validator.map Validator.new ∧
    (store_genesis_block cfg l).2.lastMeta = ⟨0, (genesisBlockOf cfg).hash⟩ := by
  have hnil : l.blocks = [] := by
    simpa [Ledger.get_genesis_block, List.head?_eq_none_iff] using h
  unfold store_genesis_block
  rw [h]
  simp [Ledger.add_genesis_block, Ledger.add_validators, hnil, genesisBlockOf,
    Header.new, Block.new]

def lFreshW : Ledger := ⟨[], [], ⟨0, 0⟩⟩

/-- Witness for C5 on a concrete empty ledger. -/
theorem store_genesis_block_fresh_witness :
    (store_genesis_block cfgW lFreshW).1 = Except.ok () ∧
    (store_genesis_block cfgW lFreshW).2.blocks = [genesisBlockOf cfgW] ∧
    (genesisBlockOf cfgW).header.height = 0 ∧
    (genesisBlockOf cfgW).header.parent_hash = EMPTY_HASH ∧
    (genesisBlockOf cfgW).transactions = [] ∧
    (genesisBlockOf cfgW).header.proposer = cfgW.proposer ∧
    (genesisBlockOf cfgW).header.time = cfgW.epoch_time ∧
    (genesisBlockOf cfgW).header.extra = some cfgW.extra ∧
    (store_genesis_block cfgW lFreshW).2.validators =
      lFreshW.validators ++ cfgW.validator.map Validator.new ∧
    (store_genesis_block cfgW lFreshW).2.lastMeta = ⟨0, (genesisBlockOf cfgW).hash⟩ :=
  store_genesis_block_fresh cfgW lFreshW rfl

end ConsensusRs
